import Mathlib

/-!
Verification of the log-panel core of this repository: the deduplication
engine, the log-level filter, and the staged rendering scheduler of
`public/app/features/explore/Logs.tsx`.

The functions `dedupLogRows` and `filterLogLevels` are imported by
`Logs.tsx` from `app/core/logs_model`, a module of this repository whose
source is not part of this excerpt; they are modelled here from the
specification (sections 3, 4.1 and 4.2). The staged rendering scheduler,
the render output of the log-rows region, and the dedup toggle handler are
embedded directly from the source of `Logs.tsx`.
-/

/-- Modelled from the spec: enumerated log severity ("enumerated severity or
unknown", section 3); declared in `app/core/logs_model`, missing from this
excerpt. -/
inductive LogLevel where
  | crit
  | error
  | warning
  | info
  | debug
  | trace
  | unknown
  deriving DecidableEq

/-- Modelled from the spec: the dedup strategy enumeration `none`, `exact`,
`numbers`, `signature` (section 3); declared in `app/core/logs_model`,
missing from this excerpt. -/
inductive LogsDedupStrategy where
  | none
  | exact
  | numbers
  | signature
  deriving DecidableEq

/-- Modelled from the spec: meta-item kinds used by the panel
(`LogsMetaKind.Number`, `LogsMetaKind.LabelsMap` are the kinds referenced by
`Logs.tsx`); declared in `app/core/logs_model`, missing from this excerpt. -/
inductive LogsMetaKind where
  | Number
  | LabelsMap
  deriving DecidableEq

/-- Modelled from the spec: a meta item is a label/value/kind triple
(section 3); declared in `app/core/logs_model`, missing from this excerpt. -/
structure LogsMetaItem where
  label : String
  value : String
  kind : LogsMetaKind
  deriving DecidableEq

/-- Modelled from the spec: the time-series representation attached to a
`LogsModel` is opaque to this core (section 3); carried as an uninterpreted
payload. -/
structure SeriesData where
  raw : String
  deriving DecidableEq

/-- Modelled from the spec: one parsed log entry with unique key, raw entry
text, timestamp renderings, optional log level, unique labels, duplicate
count and search words (section 3); declared in `app/core/logs_model`,
missing from this excerpt. `logLevel` is `Option.none` for a row with no
assigned level. -/
structure LogRow where
  key : String
  entry : String
  timestamp : String
  timeLocal : String
  timeFromNow : String
  logLevel : Option LogLevel
  uniqueLabels : List (String × String)
  duplicates : Nat
  searchWords : List String
  deriving DecidableEq

/-- Modelled from the spec: a batch of rows plus metadata and an opaque
time-series representation (section 3); declared in `app/core/logs_model`,
missing from this excerpt. -/
structure LogsModel where
  rows : List LogRow
  meta : List LogsMetaItem
  series : SeriesData
  deriving DecidableEq

/-- Modelled from the spec: replaces every maximal run of digits by a single
placeholder character (strategy `numbers`: "raw text with digit runs
replaced by a placeholder", section 4.1). The flag records whether the
previous character was a digit, so a whole run collapses to one
placeholder. -/
def collapseDigitRuns (inRun : Bool) : List Char → List Char
  | [] => []
  | c :: rest =>
    if c.isDigit then
      (if inRun then [] else ['#']) ++ collapseDigitRuns true rest
    else
      c :: collapseDigitRuns false rest

/-- Modelled from the spec: the strategy's normalization rule for comparison
keys (section 4.1): `exact` uses the raw text, `numbers` replaces digit runs
by a placeholder, `signature` removes all non-alphabetic characters. -/
def normalizeKey (strategy : LogsDedupStrategy) (text : String) : String :=
  match strategy with
  | LogsDedupStrategy.none => text
  | LogsDedupStrategy.exact => text
  | LogsDedupStrategy.numbers => String.mk (collapseDigitRuns false text.toList)
  | LogsDedupStrategy.signature => String.mk (text.toList.filter Char.isAlpha)

/-- Modelled from the spec: the single linear pass of the dedup engine
(section 4.1): walk the sequence keeping a current candidate; a subsequent
row whose normalized key equals the candidate's is absorbed (the candidate's
duplicate count grows by one and the row is not emitted), otherwise the
candidate is emitted and the row becomes the new candidate. Per the
data-model invariant (section 3), an emitted candidate's duplicate count is
exactly the number of rows it absorbed, itself excluded. -/
def dedupAdjacent (key : String → String) : LogRow → Nat → List LogRow → List LogRow
  | cand, absorbed, [] => [{ cand with duplicates := absorbed }]
  | cand, absorbed, r :: rest =>
    if key r.entry = key cand.entry then
      dedupAdjacent key cand (absorbed + 1) rest
    else
      { cand with duplicates := absorbed } :: dedupAdjacent key r 0 rest

/-- Modelled from the spec: `dedupRows(rows, strategy)` (section 4.1).
Strategy `none` returns the input sequence unchanged; any other strategy
performs the adjacent-merge linear pass using that strategy's normalization
rule. Declared in `app/core/logs_model`, missing from this excerpt. -/
def dedupRows (rows : List LogRow) (strategy : LogsDedupStrategy) : List LogRow :=
  if strategy = LogsDedupStrategy.none then rows
  else
    match rows with
    | [] => []
    | r :: rest => dedupAdjacent (normalizeKey strategy) r 0 rest

/-- Modelled from the spec: the model-level wrapper `dedupLogRows` called by
`Logs.render` (Logs.tsx line 371): dedups the row sequence, passing the rest
of the model through. -/
def dedupLogRows (logs : LogsModel) (strategy : LogsDedupStrategy) : LogsModel :=
  { logs with rows := dedupRows logs.rows strategy }

/-- Sum of the duplicate counts of a row sequence, as computed by
`Logs.render` (Logs.tsx line 372: `reduce((sum, row) => sum + row.duplicates, 0)`). -/
def sumDuplicates (rows : List LogRow) : Nat :=
  (rows.map fun r => r.duplicates).sum

/-- Modelled from the spec: `filterLogLevels(model, hidden)` (section 4.2):
returns a new model whose row sequence excludes every row whose level is a
member of `hidden`; rows with no assigned level are never filtered out; meta
and series pass through unchanged. Declared in `app/core/logs_model`,
missing from this excerpt. -/
def filterLogLevels (model : LogsModel) (hidden : List LogLevel) : LogsModel :=
  { model with
      rows := model.rows.filter fun r =>
        match r.logLevel with
        | Option.none => true
        | Option.some l => !(decide (l ∈ hidden)) }

/-- Concrete row used by witnesses. -/
def rowA : LogRow :=
  { key := "a", entry := "alpha", timestamp := "t0", timeLocal := "l0",
    timeFromNow := "n0", logLevel := Option.some LogLevel.info,
    uniqueLabels := [], duplicates := 0, searchWords := [] }

/-- Concrete row used by witnesses, with entry text different from `rowA`. -/
def rowB : LogRow :=
  { key := "b", entry := "beta", timestamp := "t1", timeLocal := "l1",
    timeFromNow := "n1", logLevel := Option.some LogLevel.error,
    uniqueLabels := [], duplicates := 0, searchWords := [] }

lemma sumDuplicates_dedupAdjacent (key : String → String) (rest : List LogRow) :
    ∀ (cand : LogRow) (absorbed : Nat),
      sumDuplicates (dedupAdjacent key cand absorbed rest)
        + (dedupAdjacent key cand absorbed rest).length
        = absorbed + (rest.length + 1) := by
  induction rest with
  | nil =>
      intro cand absorbed
      simp [dedupAdjacent, sumDuplicates]
  | cons r rest ih =>
      intro cand absorbed
      by_cases h : key r.entry = key cand.entry
      · rw [show dedupAdjacent key cand absorbed (r :: rest)
            = dedupAdjacent key cand (absorbed + 1) rest by
              simp [dedupAdjacent, h]]
        have h2 := ih cand (absorbed + 1)
        simp only [List.length_cons]
        omega
      · rw [show dedupAdjacent key cand absorbed (r :: rest)
            = { cand with duplicates := absorbed } :: dedupAdjacent key r 0 rest by
              simp [dedupAdjacent, h]]
        have h2 := ih r 0
        simp only [sumDuplicates, List.map_cons, List.sum_cons, List.length_cons] at h2 ⊢
        omega

/-- C1: for every row sequence and every dedup strategy other than `none`,
the sum of the duplicate counts over the output of `dedupRows` plus the
length of the output equals the length of the input: each surviving row's
duplicate count is exactly the number of rows it absorbed, itself
excluded. -/
theorem dedup_conserves_row_count (rows : List LogRow) (s : LogsDedupStrategy)
    (h : s ≠ LogsDedupStrategy.none) :
    sumDuplicates (dedupRows rows s) + (dedupRows rows s).length = rows.length := by
  unfold dedupRows
  rw [if_neg h]
  cases rows with
  | nil => simp [sumDuplicates]
  | cons r rest =>
      have h2 := sumDuplicates_dedupAdjacent (normalizeKey s) rest r 0
      simp only [List.length_cons]
      omega

/-- Witness for C1 at a concrete input: three rows, two of which are
adjacent duplicates, under strategy `exact`. -/
theorem dedup_conserves_row_count_witness :
    sumDuplicates (dedupRows [rowA, rowA, rowB] LogsDedupStrategy.exact)
      + (dedupRows [rowA, rowA, rowB] LogsDedupStrategy.exact).length = 3 :=
  dedup_conserves_row_count [rowA, rowA, rowB] LogsDedupStrategy.exact (by decide)

/-- C2: `dedupRows` under strategy `none` is the identity: the same rows in
the same order with their duplicate counts untouched. -/
theorem dedup_none_identity (rows : List LogRow) :
    dedupRows rows LogsDedupStrategy.none = rows := by
  simp [dedupRows]

/-- C3: only adjacent rows with equal normalized keys are merged, in one
linear pass that preserves the order of surviving rows: `[A, B, A]` with
distinct entry texts between A and B yields the three rows in order, each
with duplicate count 0, while `[A, A, A]` with identical text yields exactly
one row with duplicate count 2. -/
theorem dedup_adjacent_only (a b a2 : LogRow)
    (hab : a.entry ≠ b.entry) (ha2 : a2.entry = a.entry) :
    dedupRows [a, b, a2] LogsDedupStrategy.exact
        = [{ a with duplicates := 0 }, { b with duplicates := 0 },
           { a2 with duplicates := 0 }]
      ∧ ∀ r : LogRow,
          dedupRows [r, r, r] LogsDedupStrategy.exact = [{ r with duplicates := 2 }] := by
  constructor
  · have h1 : b.entry ≠ a.entry := fun e => hab e.symm
    have h2 : a2.entry ≠ b.entry := fun e => hab (ha2.symm.trans e)
    simp [dedupRows, dedupAdjacent, normalizeKey, h1, h2]
  · intro r
    simp [dedupRows, dedupAdjacent, normalizeKey]

/-- Witness for C3 at concrete rows with entries "alpha" and "beta". -/
theorem dedup_adjacent_only_witness :
    dedupRows [rowA, rowB, rowA] LogsDedupStrategy.exact
        = [{ rowA with duplicates := 0 }, { rowB with duplicates := 0 },
           { rowA with duplicates := 0 }]
      ∧ dedupRows [rowB, rowB, rowB] LogsDedupStrategy.exact
          = [{ rowB with duplicates := 2 }] := by
  have h := dedup_adjacent_only rowA rowB rowA (by decide) rfl
  exact ⟨h.1, h.2 rowB⟩

/-- C4: `filterLogLevels` returns a model whose rows never have a level in
the hidden set, keeps every row with no assigned level, and is the identity
on the empty hidden set. (As a pure function of the embedding it cannot
mutate its input.) -/
theorem filter_log_levels_spec (M : LogsModel) (hidden : List LogLevel) :
    (∀ r ∈ (filterLogLevels M hidden).rows, ∀ l, r.logLevel = Option.some l → l ∉ hidden)
      ∧ (∀ r ∈ M.rows, r.logLevel = Option.none → r ∈ (filterLogLevels M hidden).rows)
      ∧ filterLogLevels M [] = M := by
  refine ⟨?_, ?_, ?_⟩
  · intro r hr l hl
    rcases List.mem_filter.mp hr with ⟨_, hp⟩
    rw [hl] at hp
    simp only [Bool.not_eq_true'] at hp
    exact of_decide_eq_false hp
  · intro r hr hl
    exact List.mem_filter.mpr ⟨hr, by simp [hl]⟩
  · show { M with rows := _ } = M
    have h : (M.rows.filter fun r =>
        match r.logLevel with
        | Option.none => true
        | Option.some l => !(decide (l ∈ ([] : List LogLevel)))) = M.rows := by
      apply List.filter_eq_self.mpr
      intro r _
      cases hl : r.logLevel <;> simp
    rw [h]

/-- Witness for C4 at a concrete model: filtering with the empty hidden set
returns the model unchanged. -/
theorem filter_log_levels_spec_witness :
    filterLogLevels { rows := [rowA, rowB], meta := [], series := { raw := "" } } []
      = { rows := [rowA, rowB], meta := [], series := { raw := "" } } :=
  (filter_log_levels_spec { rows := [rowA, rowB], meta := [], series := { raw := "" } } []).2.2

/-- The preview slice bound, from Logs.tsx line 28: `const PREVIEW_LIMIT = 100`. -/
def PREVIEW_LIMIT : Nat := 100

/-- The component-local state of `Logs`, from the `LogsState` interface of
Logs.tsx (lines 261 to 269): dedup strategy, the deferring flag, the hidden
log levels, the render-all flag, and the display toggles. -/
structure LogsState where
  dedup : LogsDedupStrategy
  deferLogs : Bool
  hiddenLogLevels : List LogLevel
  renderAll : Bool
  showLabels : Option Bool
  showLocalTime : Bool
  showUtc : Bool
  deriving DecidableEq

/-- The initial state of `Logs`, from Logs.tsx lines 275 to 283. -/
def initialLogsState : LogsState :=
  { dedup := LogsDedupStrategy.none, deferLogs := true, hiddenLogLevels := [],
    renderAll := false, showLabels := Option.none, showLocalTime := true,
    showUtc := false }

/-- A `Logs` component instance: its state, its two timer fields
(`deferLogsTimer` carries the scheduled delay in milliseconds together with
the `renderAll` value captured by the callback closure; `renderAllTimer`
carries its delay), and whether the surface has been torn down. -/
structure LogsComponent where
  state : LogsState
  deferLogsTimer : Option (Nat × Bool)
  renderAllTimer : Option Nat
  unmounted : Bool
  deriving DecidableEq

/-- A freshly constructed, mounted `Logs` component before lifecycle
callbacks run: initial state, no timers pending, surface alive. -/
def mkLogsComponent : LogsComponent :=
  { state := initialLogsState, deferLogsTimer := Option.none,
    renderAllTimer := Option.none, unmounted := false }

/-- A state update followed by the `componentDidUpdate` reaction of Logs.tsx
(lines 296 to 301): if the update left the deferring phase with `renderAll`
false, schedule the reveal-all timer with a fixed 2000 ms delay. -/
def applyUpdate (c : LogsComponent) (next : LogsState) : LogsComponent :=
  let c1 : LogsComponent := { c with state := next }
  if c.state.deferLogs && !next.deferLogs && !next.renderAll then
    { c1 with renderAllTimer := Option.some 2000 }
  else c1

/-- The row count taken from the `data` prop, from Logs.tsx line 289:
`data && data.rows ? data.rows.length : 0`. -/
def rowCount : Option LogsModel → Nat
  | Option.none => 0
  | Option.some m => m.rows.length

/-- Whether the panel has data, from Logs.tsx line 366:
`data && data.rows && data.rows.length > 0`. -/
def hasData : Option LogsModel → Bool
  | Option.none => false
  | Option.some m => decide (0 < m.rows.length)

/-- The `componentDidMount` staged-rendering activation of Logs.tsx (lines
285 to 294): when deferring, compute `renderAll := rowCount <= PREVIEW_LIMIT * 2`
and schedule the defer timer with the raw row count as its millisecond
delay; the computed `renderAll` is captured by the callback. -/
def componentDidMount (c : LogsComponent) (data : Option LogsModel) : LogsComponent :=
  if c.state.deferLogs then
    { c with deferLogsTimer :=
        Option.some (rowCount data, decide (rowCount data ≤ PREVIEW_LIMIT * 2)) }
  else c

/-- Firing of the defer timer: its callback (Logs.tsx line 292) sets
`deferLogs := false` and `renderAll` to the captured value; `componentDidUpdate`
then reacts. A cancelled timer or a torn-down surface fires nothing. -/
def fireDeferLogsTimer (c : LogsComponent) : LogsComponent :=
  if c.unmounted then c
  else
    match c.deferLogsTimer with
    | Option.none => c
    | Option.some (_, ra) =>
        applyUpdate { c with deferLogsTimer := Option.none }
          { c.state with deferLogs := false, renderAll := ra }

/-- Firing of the reveal-all timer: its callback (Logs.tsx line 299) sets
`renderAll := true`. A cancelled timer or a torn-down surface fires
nothing. -/
def fireRenderAllTimer (c : LogsComponent) : LogsComponent :=
  if c.unmounted then c
  else
    match c.renderAllTimer with
    | Option.none => c
    | Option.some _ =>
        applyUpdate { c with renderAllTimer := Option.none }
          { c.state with renderAll := true }

/-- The `componentWillUnmount` teardown of Logs.tsx (lines 303 to 306):
clears both timers and marks the surface torn down. -/
def componentWillUnmount (c : LogsComponent) : LogsComponent :=
  { c with
      deferLogsTimer := Option.none
      renderAllTimer := Option.none
      unmounted := true }

/-- The phases of the staged renderer as the spec names them (section 4.3),
derived from the two state flags. -/
inductive RenderPhase where
  | deferring
  | previewOnly
  | full
  deriving DecidableEq

/-- The phase of a state: deferring while `deferLogs`; otherwise full when
`renderAll` and previewOnly when not. -/
def phase (s : LogsState) : RenderPhase :=
  if s.deferLogs then RenderPhase.deferring
  else if s.renderAll then RenderPhase.full
  else RenderPhase.previewOnly

/-- The rows rendered by the logs-rows region of `Logs.render` (Logs.tsx
lines 469 to 500): `firstRows = processedRows.slice(0, PREVIEW_LIMIT)` when
there is data and deferring is over, plus `lastRows = processedRows.slice(PREVIEW_LIMIT)`
when additionally `renderAll` holds. -/
def renderedRows (hd : Bool) (s : LogsState) (processed : List LogRow) : List LogRow :=
  (if hd && !s.deferLogs then processed.take PREVIEW_LIMIT else [])
    ++ (if hd && !s.deferLogs && s.renderAll then processed.drop PREVIEW_LIMIT else [])

/-- The placeholder rendered by the logs-rows region of `Logs.render`
(Logs.tsx line 501): shown only when there is data and the component is
deferring. -/
def renderedPlaceholder (hd : Bool) (s : LogsState) (processedCount : Nat) : Option String :=
  if hd && s.deferLogs then
    Option.some ("Rendering " ++ toString processedCount ++ " rows...")
  else Option.none

/-- The `onChangeDedup` handler of Logs.tsx (lines 308 to 315): selecting
the strategy already active resets it to `none`, otherwise the selected
strategy becomes active; no other state field changes. -/
def onChangeDedup (s : LogsState) (dedup : LogsDedupStrategy) : LogsState :=
  if s.dedup = dedup then { s with dedup := LogsDedupStrategy.none }
  else { s with dedup := dedup }

/-- Concrete data prop with 50 rows, used by witnesses. -/
def data50 : Option LogsModel :=
  Option.some { rows := List.replicate 50 rowA, meta := [], series := { raw := "" } }

/-- Concrete data prop with 500 rows, used by witnesses. -/
def data500 : Option LogsModel :=
  Option.some { rows := List.replicate 500 rowA, meta := [], series := { raw := "" } }

/-- Concrete model with no rows, used by the deferring-placeholder
counterexample. -/
def emptyModel : LogsModel :=
  { rows := [], meta := [], series := { raw := "" } }

/-- C5: on activation with N rows the defer-timer callback captures
`renderAll = decide (N <= PREVIEW_LIMIT * 2)`; the component starts in the
deferring phase, and whenever that captured value is true, firing the defer
timer lands directly in the full phase with no reveal-all timer scheduled,
so the previewOnly phase is never entered. -/
theorem staged_renderAll_computed (data : Option LogsModel) :
    (componentDidMount mkLogsComponent data).deferLogsTimer
        = Option.some (rowCount data, decide (rowCount data ≤ PREVIEW_LIMIT * 2))
      ∧ phase (componentDidMount mkLogsComponent data).state = RenderPhase.deferring
      ∧ (rowCount data ≤ PREVIEW_LIMIT * 2 →
          phase (fireDeferLogsTimer (componentDidMount mkLogsComponent data)).state
              = RenderPhase.full
            ∧ (fireDeferLogsTimer (componentDidMount mkLogsComponent data)).renderAllTimer
                = Option.none) := by
  refine ⟨?_, ?_, ?_⟩
  · simp [componentDidMount, mkLogsComponent, initialLogsState]
  · simp [componentDidMount, mkLogsComponent, initialLogsState, phase]
  · intro h
    have hb : decide (rowCount data ≤ PREVIEW_LIMIT * 2) = true := decide_eq_true h
    constructor <;>
      simp [componentDidMount, mkLogsComponent, initialLogsState, fireDeferLogsTimer,
        applyUpdate, phase, hb]

/-- Witness for C5 at N = 50 rows: the scheduler reaches the full phase
directly. -/
theorem staged_renderAll_computed_witness :
    phase (fireDeferLogsTimer (componentDidMount mkLogsComponent data50)).state
      = RenderPhase.full :=
  ((staged_renderAll_computed data50).2.2 (by decide)).1

/-- C6: when the captured `renderAll` is false (N > PREVIEW_LIMIT * 2),
firing the defer timer enters the previewOnly phase rendering exactly the
first PREVIEW_LIMIT processed rows, and schedules the reveal-all timer with
a fixed 2000 ms delay; firing that timer enters the full phase rendering all
processed rows. -/
theorem staged_preview_then_full (data : Option LogsModel)
    (h : PREVIEW_LIMIT * 2 < rowCount data) :
    hasData data = true
      ∧ phase (fireDeferLogsTimer (componentDidMount mkLogsComponent data)).state
          = RenderPhase.previewOnly
      ∧ (fireDeferLogsTimer (componentDidMount mkLogsComponent data)).renderAllTimer
          = Option.some 2000
      ∧ (∀ processed : List LogRow,
          renderedRows (hasData data)
              (fireDeferLogsTimer (componentDidMount mkLogsComponent data)).state processed
            = processed.take PREVIEW_LIMIT)
      ∧ phase (fireRenderAllTimer
            (fireDeferLogsTimer (componentDidMount mkLogsComponent data))).state
          = RenderPhase.full
      ∧ (∀ processed : List LogRow,
          renderedRows (hasData data)
              (fireRenderAllTimer
                (fireDeferLogsTimer (componentDidMount mkLogsComponent data))).state processed
            = processed) := by
  have hno : ¬(rowCount data ≤ PREVIEW_LIMIT * 2) := by omega
  have hb : decide (rowCount data ≤ PREVIEW_LIMIT * 2) = false := decide_eq_false hno
  have hd : hasData data = true := by
    cases data with
    | none => simp [rowCount] at h
    | some m =>
        simp only [rowCount] at h
        simp [hasData]
        omega
  refine ⟨hd, ?_, ?_, ?_, ?_, ?_⟩ <;>
    simp [componentDidMount, mkLogsComponent, initialLogsState, fireDeferLogsTimer,
      fireRenderAllTimer, applyUpdate, phase, hb, hd, renderedRows,
      List.take_append_drop]

set_option maxRecDepth 4000 in
/-- Witness for C6 at N = 500 rows: the reveal-all timer is scheduled with a
2000 ms delay. -/
theorem staged_preview_then_full_witness :
    (fireDeferLogsTimer (componentDidMount mkLogsComponent data500)).renderAllTimer
      = Option.some 2000 :=
  (staged_preview_then_full data500 (by decide)).2.2.1

/-- C7: the delay of the defer timer scheduled at activation equals the raw
row count N itself, used as a millisecond delay. -/
theorem defer_delay_is_row_count (data : Option LogsModel) :
    Option.map Prod.fst (componentDidMount mkLogsComponent data).deferLogsTimer
      = Option.some (rowCount data) := by
  simp [componentDidMount, mkLogsComponent, initialLogsState]

/-- C8: teardown clears both the defer timer and the reveal-all timer, and
no timer firing after teardown changes the component in any way. -/
theorem unmount_cancels_timers (c : LogsComponent) :
    (componentWillUnmount c).deferLogsTimer = Option.none
      ∧ (componentWillUnmount c).renderAllTimer = Option.none
      ∧ fireDeferLogsTimer (componentWillUnmount c) = componentWillUnmount c
      ∧ fireRenderAllTimer (componentWillUnmount c) = componentWillUnmount c := by
  simp [componentWillUnmount, fireDeferLogsTimer, fireRenderAllTimer]

/-- Counterexample to C9 as stated: in the initial (deferring) state with a
data prop whose row list is empty, `hasData` is false and the logs-rows
region renders no placeholder at all. -/
theorem deferring_placeholder_counterexample :
    phase initialLogsState = RenderPhase.deferring
      ∧ renderedPlaceholder (hasData (Option.some emptyModel)) initialLogsState 0
          = Option.none := by
  constructor <;> rfl

/-- C9 amended: in every deferring state no row is rendered, and whenever
there is data the logs-rows region shows the placeholder
"Rendering n rows..." with the processed row count substituted. -/
theorem deferring_renders_no_rows (hd : Bool) (s : LogsState)
    (processed : List LogRow) (n : Nat) (h : phase s = RenderPhase.deferring) :
    renderedRows hd s processed = []
      ∧ (hd = true →
          renderedPlaceholder hd s n
            = Option.some ("Rendering " ++ toString n ++ " rows...")) := by
  have hdl : s.deferLogs = true := by
    by_contra hc
    simp only [Bool.not_eq_true] at hc
    simp only [phase, hc, if_false, Bool.false_eq_true] at h
    cases hra : s.renderAll <;> simp [hra] at h
  constructor
  · simp [renderedRows, hdl]
  · intro hh
    simp [renderedPlaceholder, hdl, hh]

/-- Witness for the amended C9 at the initial state with one processed row
pending and three rows deduped. -/
theorem deferring_renders_no_rows_witness :
    renderedRows true initialLogsState [rowA] = []
      ∧ renderedPlaceholder true initialLogsState 3
          = Option.some ("Rendering " ++ toString 3 ++ " rows...") :=
  ⟨(deferring_renders_no_rows true initialLogsState [rowA] 3 rfl).1,
   (deferring_renders_no_rows true initialLogsState [rowA] 3 rfl).2 rfl⟩

/-- C10: selecting the active dedup strategy toggles it off: when the
current strategy equals the selected one the handler resets it to `none`,
otherwise it sets the selected strategy. -/
theorem onChangeDedup_toggle (s : LogsState) (d : LogsDedupStrategy) :
    (s.dedup = d → (onChangeDedup s d).dedup = LogsDedupStrategy.none)
      ∧ (s.dedup ≠ d → (onChangeDedup s d).dedup = d) := by
  constructor <;> intro h <;> simp [onChangeDedup, h]

/-- Witness for C10: toggling `exact` off from a state where it is active,
and switching it on from the initial state. -/
theorem onChangeDedup_toggle_witness :
    (onChangeDedup { initialLogsState with dedup := LogsDedupStrategy.exact }
        LogsDedupStrategy.exact).dedup = LogsDedupStrategy.none
      ∧ (onChangeDedup initialLogsState LogsDedupStrategy.exact).dedup
          = LogsDedupStrategy.exact :=
  ⟨(onChangeDedup_toggle { initialLogsState with dedup := LogsDedupStrategy.exact }
      LogsDedupStrategy.exact).1 rfl,
   (onChangeDedup_toggle initialLogsState LogsDedupStrategy.exact).2 (by decide)⟩
